import Mathlib

/-!
Verification of the MP4 duration scanner (src/mp4_scanner.c).

The byte stream of an opened file is modelled as a `List Nat` of its bytes
(stored values are reduced mod 256, mirroring `uint8_t` storage) together
with an explicit cursor position, mirroring the C `FILE*` position.
`fread` of `n` bytes at position `pos` consumes `min n (length - pos)`
bytes; a short read leaves the cursor at end of file and, in the decoding
helpers, yields the value 0, exactly as `read_u32_be` does.  `fseek`
forward always succeeds on a regular file (the offset passed by the C code
is a `uint32_t` converted to a nonnegative `long`, so it is never
negative).  The C `double` arithmetic is modelled with exact rationals
(`ℚ`).
-/

namespace MP4Scanner

/-- Byte stored at index `i` of the stream (0 when out of range, which is
only ever relied on at positions guarded by `avail`); `% 256` mirrors
`uint8_t` storage. -/
def byteAt (data : List Nat) (i : Nat) : Nat := data.getD i 0 % 256

/-- Number of bytes remaining at cursor `pos` (0 when at or past EOF). -/
def avail (data : List Nat) (pos : Nat) : Nat := data.length - pos

/-- Cursor after an `fread` of `n` bytes at `pos`: a short read consumes
what remains and leaves the cursor at EOF. -/
def stepPos (data : List Nat) (pos n : Nat) : Nat := pos + min n (avail data pos)

/-- Model of `read_u32_be` (src/mp4_scanner.c:76-82): read 4 bytes
big-endian; a short read returns 0. -/
def readU32 (data : List Nat) (pos : Nat) : Nat :=
  if 4 ≤ avail data pos then
    byteAt data pos * 2 ^ 24 + byteAt data (pos + 1) * 2 ^ 16 +
      byteAt data (pos + 2) * 2 ^ 8 + byteAt data (pos + 3)
  else 0

/-- Model of `read_u64_be` (src/mp4_scanner.c:88-93): two big-endian u32
halves, `(high << 32) | low`; each half is 0 on a short read. -/
def readU64 (data : List Nat) (pos : Nat) : Nat :=
  readU32 data pos * 2 ^ 32 + readU32 data (stepPos data pos 4)

/-- The 4 tag bytes read into `box_type` (only used when the guarding
`fread` returned a full 4 bytes). -/
def bytes4 (data : List Nat) (pos : Nat) : List Nat :=
  [byteAt data pos, byteAt data (pos + 1), byteAt data (pos + 2), byteAt data (pos + 3)]

/-- The tag "moov". -/
def moovType : List Nat := [109, 111, 111, 118]

/-- The tag "mvhd". -/
def mvhdType : List Nat := [109, 118, 104, 100]

/-- One loop of `find_atom` (src/mp4_scanner.c:99-128), with explicit fuel
so that the definition is structurally recursive and computes in the
kernel.  Per iteration: read a 4-byte big-endian `box_size`, read the
4-byte tag (breaking out with return value 0 if that read is short); if
`box_size == 1` read the 8-byte extended size, truncated to `uint32_t` by
the C cast at line 112; on a tag match return `(1, box_size, ftell)`; on a
mismatch seek forward by `(box_size - 8)` computed in `uint32_t`
arithmetic (the offset converts to a nonnegative `long`, so the seek
always succeeds) and continue.  The out-parameters `*size` and
`*start_pos` are modelled by threading their caller-side values
`s0`, `p0`, returned unchanged on the not-found paths. -/
def findAtomFuel (data target : List Nat) (s0 p0 : Nat) : Nat → Nat → Nat × Nat × Nat
  | 0, _ => (0, s0, p0)
  | fuel + 1, pos =>
    let sz := readU32 data pos
    let pos1 := stepPos data pos 4
    if 4 ≤ avail data pos1 then
      let tag := bytes4 data pos1
      let pos2 := pos1 + 4
      let bs := if sz = 1 then readU64 data pos2 % 2 ^ 32 else sz
      let pos3 := if sz = 1 then stepPos data (stepPos data pos2 4) 4 else pos2
      if tag = target then (1, bs, pos3)
      else findAtomFuel data target s0 p0 fuel (pos3 + (bs + 2 ^ 32 - 8) % 2 ^ 32)
    else (0, s0, p0)

/-- Model of `find_atom` (src/mp4_scanner.c:99-128).  The fuel `data.length + 1`
always exceeds the number of loop iterations (each continued iteration
needs 8 bytes at the cursor and advances the cursor by at least 8), as the
fuel-stability lemma below proves. -/
def find_atom (data target : List Nat) (pos s0 p0 : Nat) : Nat × Nat × Nat :=
  findAtomFuel data target s0 p0 (data.length + 1) pos

/-- Result record `MP4Duration` (src/mp4_scanner.c:42-46); the C `double`
is modelled by `ℚ`, the C `int` flag by `Bool`. -/
structure MP4Duration where
  duration_seconds : ℚ
  found : Bool
deriving DecidableEq, Repr

/-- The mvhd payload decode (src/mp4_scanner.c:155-173), starting at the
position `p` returned for `mvhd`: read the 1-byte `version` (if that read
is short the C `version` variable keeps its indeterminate stack value,
modelled by the parameter `vj`), seek 3 flag bytes forward, then per
version seek 8+8 or 4+4 bytes and read `timescale` (u32) and `duration`
(u64 for version 1, u32 otherwise).  Returns `(timescale, duration)`. -/
def readMvhdPayload (data : List Nat) (p vj : Nat) : Nat × Nat :=
  let version := if 1 ≤ avail data p then byteAt data p else vj
  let p1 := stepPos data p 1 + 3
  if version = 1 then
    let p2 := p1 + 16
    (readU32 data p2, readU64 data (stepPos data p2 4))
  else
    let p2 := p1 + 8
    (readU32 data p2, readU32 data (stepPos data p2 4))

/-- Model of `get_mp4_duration` (src/mp4_scanner.c:134-183).  The input is `none`
when `fopen` fails, otherwise the file's bytes.  `vj` is the indeterminate
stack value of the C `version` variable, used only if the 1-byte version
read is short (the independence of the result from `vj` is proved below).
The result starts as `{0, 0}` and is filled only when `timescale > 0`. -/
def get_mp4_duration (file : Option (List Nat)) (vj : Nat) : MP4Duration :=
  match file with
  | none => ⟨0, false⟩
  | some data =>
    let r1 := find_atom data moovType 0 0 0
    if r1.1 ≠ 0 then
      let r2 := find_atom data mvhdType r1.2.2 0 0
      if r2.1 ≠ 0 then
        let td := readMvhdPayload data r2.2.2 vj
        if 0 < td.1 then ⟨(td.2 : ℚ) / (td.1 : ℚ), true⟩ else ⟨0, false⟩
      else ⟨0, false⟩
    else ⟨0, false⟩

/-- Model of C `tolower` on an `unsigned char` value (ASCII/C locale):
map codes 65..90 to 97..122, leave everything else. -/
def toLowerByte (b : Nat) : Nat :=
  if 65 ≤ b % 256 ∧ b % 256 ≤ 90 then b % 256 + 32 else b % 256

/-- Model of `strrchr(name, '.')` on a NUL-free file name: the suffix of
the name starting at its last dot, or `none` when the name has no dot. -/
def strrchrDot : List Nat → Option (List Nat)
  | [] => none
  | b :: rest =>
    match strrchrDot rest with
    | some e => some e
    | none => if b % 256 = 46 then some (b :: rest) else none

/-- Model of `strcasecmp(ext, ".mp4") == 0`: the two byte strings are
equal after `tolower` on every byte (".mp4" is its own lowering). -/
def strcaseEqMp4 (l : List Nat) : Bool := l.map toLowerByte == [46, 109, 112, 52]

/-- The walker's extension test (src/mp4_scanner.c:252-253):
`strrchr(d_name, '.')` followed by `strcasecmp(ext, ".mp4") == 0`. -/
def hasMp4Ext (name : List Nat) : Bool :=
  match strrchrDot name with
  | some e => strcaseEqMp4 e
  | none => false

/-- Record `Stats` (src/mp4_scanner.c:54-59); the C `double` accumulator
is modelled by `ℚ`. -/
structure Stats where
  total_files : Nat
  total_folders_with_mp4 : Nat
  total_duration_seconds : ℚ
deriving DecidableEq

/-- A directory entry as `scan_directory` classifies it via `stat`:
a regular file (with its name and, if `fopen` succeeds, its bytes), a
subdirectory (with its name, whether `opendir` succeeds on it, and its
entries, the `.` and `..` entries omitted as the code skips them), or
anything else (non-regular entries and entries whose `stat` fails, both
skipped by the code). -/
inductive FSEntry where
  | fileE : List Nat → Option (List Nat) → FSEntry
  | dirE : List Nat → Bool → List FSEntry → FSEntry
  | otherE : List Nat → FSEntry

mutual

/-- Model of `scan_directory` (src/mp4_scanner.c:224-285): if `opendir`
fails return with the statistics untouched; otherwise run the entry loop
with fresh local counters and, if the local MP4 count is positive, bump
`total_folders_with_mp4` (the verbose `printf` is presentation only and
has no effect on the statistics). -/
def scan_directory (vj : Nat) (readable : Bool) (entries : List FSEntry) (s : Stats) : Stats :=
  if readable then
    let r := scanLoop vj entries s 0 0
    if 0 < r.2.1 then
      ⟨r.1.total_files, r.1.total_folders_with_mp4 + 1, r.1.total_duration_seconds⟩
    else r.1
  else s

/-- The `readdir` loop of `scan_directory` (src/mp4_scanner.c:235-265),
threading the global statistics `s` and the per-call locals
`local_mp4_count` and `local_duration`: subdirectories recurse (locals
untouched), regular files with a matching extension and a found duration
update the global file count and duration and both locals, everything
else is skipped. -/
def scanLoop (vj : Nat) : List FSEntry → Stats → Nat → ℚ → Stats × Nat × ℚ
  | [], s, lc, ld => (s, lc, ld)
  | FSEntry.otherE _ :: rest, s, lc, ld => scanLoop vj rest s lc ld
  | FSEntry.dirE _ r es :: rest, s, lc, ld =>
    scanLoop vj rest (scan_directory vj r es s) lc ld
  | FSEntry.fileE n c :: rest, s, lc, ld =>
    if hasMp4Ext n then
      let d := get_mp4_duration c vj
      if d.found then
        scanLoop vj rest
          ⟨s.total_files + 1, s.total_folders_with_mp4,
            s.total_duration_seconds + d.duration_seconds⟩
          (lc + 1) (ld + d.duration_seconds)
      else scanLoop vj rest s lc ld
    else scanLoop vj rest s lc ld

end

mutual

/-- Entry lists of the directories the walker visits and successfully
opens, starting from a root with the given readability and entries: the
root's own entry list (when readable) followed by those of all nested
visited directories. -/
def visitedDirs (readable : Bool) (entries : List FSEntry) : List (List FSEntry) :=
  if readable then entries :: visitedDirsList entries else []

/-- Entry lists of all visited directories nested below the given
entries. -/
def visitedDirsList : List FSEntry → List (List FSEntry)
  | [] => []
  | FSEntry.dirE _ r es :: rest => visitedDirs r es ++ visitedDirsList rest
  | FSEntry.fileE _ _ :: rest => visitedDirsList rest
  | FSEntry.otherE _ :: rest => visitedDirsList rest

end

/-- Modelled from the spec sentence behind C6: an entry is a counted MP4
file when it is a regular file whose name passes the case-insensitive
`.mp4` test and whose extracted duration reports `found`. -/
def isCountedFile (vj : Nat) : FSEntry → Bool
  | FSEntry.fileE n c => hasMp4Ext n && (get_mp4_duration c vj).found
  | _ => false

/-- Extracted duration of a file entry (0 for non-files). -/
def fileDur (vj : Nat) : FSEntry → ℚ
  | FSEntry.fileE _ c => (get_mp4_duration c vj).duration_seconds
  | _ => 0

/-- Number of counted MP4 files directly in one directory's entry list. -/
def dirFileCount (vj : Nat) (l : List FSEntry) : Nat := l.countP (isCountedFile vj)

/-- Sum of the counted MP4 files' durations directly in one directory's
entry list. -/
def dirDurSum (vj : Nat) (l : List FSEntry) : ℚ :=
  (l.map fun e => if isCountedFile vj e then fileDur vj e else 0).sum

/-- Spec-side count for C6: counted MP4 files over all visited
directories. -/
def specFiles (vj : Nat) (r : Bool) (es : List FSEntry) : Nat :=
  ((visitedDirs r es).map (dirFileCount vj)).sum

/-- Spec-side count for C6: visited directories directly containing at
least one counted MP4 file. -/
def specFolders (vj : Nat) (r : Bool) (es : List FSEntry) : Nat :=
  (visitedDirs r es).countP fun l => l.any (isCountedFile vj)

/-- Spec-side sum for C6: total duration of counted MP4 files over all
visited directories. -/
def specDur (vj : Nat) (r : Bool) (es : List FSEntry) : ℚ :=
  ((visitedDirs r es).map (dirDurSum vj)).sum

/-- A large moov box whose extended 64-bit size field holds `2^32 + 16`:
this is the smallest input separating the full 64-bit size from its
low 32 bits. -/
def largeMoov : List Nat := [0, 0, 0, 1, 109, 111, 111, 118, 0, 0, 0, 1, 0, 0, 0, 16]

/-- A mismatched large box "free" of declared size 24 (16 header bytes
plus 8 payload bytes), immediately followed at offset 24 by a well-formed
moov box of size 16. -/
def largeThenMoov : List Nat :=
  [0, 0, 0, 1, 102, 114, 101, 101, 0, 0, 0, 0, 0, 0, 0, 24,
   0, 0, 0, 0, 0, 0, 0, 0,
   0, 0, 0, 16, 109, 111, 111, 118,
   0, 0, 0, 0, 0, 0, 0, 0]

/-- A minimal well-formed version-0 file: moov(36 bytes) containing
mvhd(28 bytes) with version 0, timescale 2 and duration 10. -/
def sampleV0File : List Nat :=
  [0, 0, 0, 36, 109, 111, 111, 118, 0, 0, 0, 28, 109, 118, 104, 100,
   0, 0, 0, 0, 0, 0, 0, 0, 0, 0, 0, 0, 0, 0, 0, 2, 0, 0, 0, 10]

lemma avail_le_length (data : List Nat) (pos : Nat) : avail data pos ≤ data.length := by
  unfold avail; omega

lemma stepPos_le_next (data : List Nat) (pos n : Nat) : pos ≤ stepPos data pos n := by
  unfold stepPos; omega

lemma guard_facts (data : List Nat) (pos : Nat)
    (h : 4 ≤ avail data (stepPos data pos 4)) :
    stepPos data pos 4 = pos + 4 ∧ 8 ≤ avail data pos := by
  unfold stepPos avail at h ⊢; omega

lemma avail_next (data : List Nat) (pos b a : Nat)
    (h : 4 ≤ avail data (stepPos data pos 4)) :
    avail data
        ((if a = 1 then stepPos data (stepPos data (stepPos data pos 4 + 4) 4) 4
          else stepPos data pos 4 + 4) + b) + 8 ≤ avail data pos := by
  split <;> (simp only [stepPos, avail] at h ⊢; omega)

/-- Fuel does not matter once it strictly dominates an eighth of the
remaining bytes: each continued iteration of the scan loop needs 8 bytes
at the cursor and moves the cursor forward by at least 8. -/
lemma findAtomFuel_stable (data target : List Nat) (s0 p0 : Nat) :
    ∀ f g pos, avail data pos < 8 * f → avail data pos < 8 * g →
      findAtomFuel data target s0 p0 f pos = findAtomFuel data target s0 p0 g pos := by
  intro f
  induction f with
  | zero => intro g pos h1 _; exact absurd h1 (by omega)
  | succ f ih =>
    intro g pos h1 h2
    match g with
    | 0 => exact absurd h2 (by omega)
    | g + 1 =>
      simp only [findAtomFuel]
      by_cases hg : 4 ≤ avail data (stepPos data pos 4)
      · simp only [if_pos hg]
        by_cases ht : bytes4 data (stepPos data pos 4) = target
        · simp only [if_pos ht]
        · simp only [if_neg ht]
          apply ih
          · have := avail_next data pos
              ((((if readU32 data pos = 1 then
                    readU64 data (stepPos data pos 4 + 4) % 2 ^ 32
                  else readU32 data pos)) + 2 ^ 32 - 8) % 2 ^ 32)
              (readU32 data pos) hg
            omega
          · have := avail_next data pos
              ((((if readU32 data pos = 1 then
                    readU64 data (stepPos data pos 4 + 4) % 2 ^ 32
                  else readU32 data pos)) + 2 ^ 32 - 8) % 2 ^ 32)
              (readU32 data pos) hg
            omega
      · simp only [if_neg hg]

/-- Every scan either reports not-found with the out-parameters untouched
or reports found (return value 1). -/
lemma findAtomFuel_ret (data target : List Nat) (s0 p0 : Nat) :
    ∀ f pos, findAtomFuel data target s0 p0 f pos = (0, s0, p0) ∨
      (findAtomFuel data target s0 p0 f pos).1 = 1 := by
  intro f
  induction f with
  | zero => intro pos; left; rfl
  | succ f ih =>
    intro pos
    simp only [findAtomFuel]
    by_cases hg : 4 ≤ avail data (stepPos data pos 4)
    · simp only [if_pos hg]
      by_cases ht : bytes4 data (stepPos data pos 4) = target
      · right; simp only [if_pos ht]
      · simp only [if_neg ht]; exact ih _
    · left; simp only [if_neg hg]

/-- C10: `find_atom` writes through its `size` and `start_pos` output
parameters only on the success path; whenever it returns 0 (not found)
the caller's variables are left unchanged. -/
theorem find_atom_frame (data target : List Nat) (pos s0 p0 : Nat)
    (h : (find_atom data target pos s0 p0).1 = 0) :
    find_atom data target pos s0 p0 = (0, s0, p0) := by
  unfold find_atom at h ⊢
  rcases findAtomFuel_ret data target s0 p0 (data.length + 1) pos with h0 | h1
  · exact h0
  · exact absurd (h.symm.trans h1) (by decide)

/-- Witness for C10 at a concrete input: scanning an empty stream returns
0 and leaves the out-parameter values 7 and 9 unchanged. -/
theorem find_atom_frame_witness :
    (find_atom [] moovType 0 7 9).1 = 0 ∧ find_atom [] moovType 0 7 9 = (0, 7, 9) :=
  ⟨by decide, find_atom_frame [] moovType 0 7 9 (by decide)⟩

/-- C5: on every input byte stream the scan terminates (a fuel strictly
above an eighth of the remaining bytes suffices, so the wrapper's fuel is
never exhausted) and reports found or not-found; `get_mp4_duration`
always returns a record, and a failed moov or mvhd search, a declared
size smaller than the 8-byte header, a size pointing past end of file or
a file shorter than a minimal header all degrade to the negative result
`{0, false}` rather than an error. -/
theorem scanner_total_safety :
    (∀ (fuel : Nat) (data target : List Nat) (pos s0 p0 : Nat),
        avail data pos < 8 * fuel →
        findAtomFuel data target s0 p0 fuel pos = find_atom data target pos s0 p0)
    ∧ (∀ (data target : List Nat) (pos s0 p0 : Nat),
        find_atom data target pos s0 p0 = (0, s0, p0) ∨
          (find_atom data target pos s0 p0).1 = 1)
    ∧ (∀ (data : List Nat) (vj : Nat),
        (find_atom data moovType 0 0 0).1 = 0 →
        get_mp4_duration (some data) vj = ⟨0, false⟩)
    ∧ (∀ (data : List Nat) (vj : Nat),
        (find_atom data mvhdType (find_atom data moovType 0 0 0).2.2 0 0).1 = 0 →
        get_mp4_duration (some data) vj = ⟨0, false⟩)
    ∧ find_atom [0, 0, 0, 4, 116, 101, 115, 116] moovType 0 0 0 = (0, 0, 0)
    ∧ find_atom [0, 0, 1, 0, 116, 101, 115, 116] moovType 0 0 0 = (0, 0, 0)
    ∧ ∀ vj : Nat, get_mp4_duration (some [0, 0, 0]) vj = ⟨0, false⟩ := by
  refine ⟨?_, ?_, ?_, ?_, by decide, by decide, ?_⟩
  · intro fuel data target pos s0 p0 h
    apply findAtomFuel_stable data target s0 p0 fuel (data.length + 1) pos h
    have := avail_le_length data pos
    omega
  · intro data target pos s0 p0
    exact findAtomFuel_ret data target s0 p0 (data.length + 1) pos
  · intro data vj h
    simp [get_mp4_duration, h]
  · intro data vj h
    by_cases h1 : (find_atom data moovType 0 0 0).1 = 0
    · simp [get_mp4_duration, h1]
    · simp [get_mp4_duration, h1, h]
  · intro vj
    have h0 : (find_atom [0, 0, 0] moovType 0 0 0).1 = 0 := by decide
    simp [get_mp4_duration, h0]

/-- Witness for C5 at concrete inputs: fuel 1 already decides the empty
stream, and an 8-byte stream with no moov box yields the negative
result. -/
theorem scanner_total_safety_witness :
    findAtomFuel [] moovType 5 6 1 0 = find_atom [] moovType 0 5 6
    ∧ get_mp4_duration (some [48, 48, 48, 48, 48, 48, 48, 48]) 0 = ⟨0, false⟩ :=
  ⟨scanner_total_safety.1 1 [] moovType 0 5 6 (by decide),
   scanner_total_safety.2.2.1 [48, 48, 48, 48, 48, 48, 48, 48] 0 (by decide)⟩

/-- C9: whenever `get_mp4_duration` reports not-found, the result is the
zero-initialized record, so `duration_seconds` is exactly 0. -/
theorem not_found_zero_duration (file : Option (List Nat)) (vj : Nat)
    (h : (get_mp4_duration file vj).found = false) :
    (get_mp4_duration file vj).duration_seconds = 0 := by
  match file with
  | none => rfl
  | some data =>
    by_cases h1 : (find_atom data moovType 0 0 0).1 ≠ 0
    · by_cases h2 :
        (find_atom data mvhdType (find_atom data moovType 0 0 0).2.2 0 0).1 ≠ 0
      · by_cases h3 : 0 < (readMvhdPayload data
            (find_atom data mvhdType (find_atom data moovType 0 0 0).2.2 0 0).2.2 vj).1
        · simp [get_mp4_duration, h1, h2, h3] at h
        · simp [get_mp4_duration, h1, h2, h3]
      · simp [get_mp4_duration, h1, h2]
    · simp [get_mp4_duration, h1]

/-- Witness for C9 at a concrete input: an unopenable file reports
not-found with a duration of exactly 0. -/
theorem not_found_zero_duration_witness :
    (get_mp4_duration none 0).found = false ∧
      (get_mp4_duration none 0).duration_seconds = 0 :=
  ⟨by decide, not_found_zero_duration none 0 (by decide)⟩

/-- C1 fails on the code: for a box whose 4-byte size field is 1, the
following 8-byte big-endian value decodes to `2^32 + 16`, but the C cast
`box_size = (uint32_t)read_u64_be(file)` (src/mp4_scanner.c:112) keeps
only the low 32 bits, so the matching moov box is reported with size 16,
not with the full 64-bit value. -/
theorem find_atom_truncates_extended_size :
    readU64 largeMoov 8 = 2 ^ 32 + 16 ∧
      find_atom largeMoov moovType 0 0 0 = (1, 16, 16) := by decide

/-- C4 fails on the code: a mismatched large box of declared size 24 ends
at offset 24, where a well-formed moov box begins, yet the scan misses
it: the skip at src/mp4_scanner.c:123 is `box_size - 8` even in the
large-box form whose header is 16 bytes, so the cursor overshoots the
next sibling header by 8 bytes and the scan reports not-found. -/
theorem find_atom_large_skip_overshoots :
    readU32 largeThenMoov 24 = 16 ∧ bytes4 largeThenMoov 28 = moovType ∧
      find_atom largeThenMoov moovType 0 0 0 = (0, 0, 0) := by decide

lemma avail_mono (data : List Nat) {p q : Nat} (h : p ≤ q) :
    avail data q ≤ avail data p := by
  simp only [avail]; omega

lemma readU32_zero (data : List Nat) (pos : Nat) (h : avail data pos < 4) :
    readU32 data pos = 0 := by
  unfold readU32; rw [if_neg]; omega

lemma readU64_zero (data : List Nat) (pos : Nat) (h : avail data pos < 4) :
    readU64 data pos = 0 := by
  unfold readU64
  rw [readU32_zero data pos h, readU32_zero data (stepPos data pos 4)
    (lt_of_le_of_lt (avail_mono data (stepPos_le_next data pos 4)) h)]
  omega

lemma readMvhd_eof (data : List Nat) (p : Nat) (h : avail data p = 0) :
    ∀ vj, readMvhdPayload data p vj = (0, 0) := by
  intro vj
  have h1 : ¬ 1 ≤ avail data p := by omega
  have hstep : stepPos data p 1 = p := by simp only [stepPos, avail] at *; omega
  simp only [readMvhdPayload, if_neg h1, hstep]
  have hz : ∀ q : Nat, p ≤ q → avail data q < 4 := by
    intro q hq
    have := avail_mono data hq
    omega
  split
  · rw [readU32_zero data (p + 3 + 16) (hz _ (by omega)),
      readU64_zero data (stepPos data (p + 3 + 16) 4)
        (hz _ (le_trans (by omega) (stepPos_le_next data (p + 3 + 16) 4)))]
  · rw [readU32_zero data (p + 3 + 8) (hz _ (by omega)),
      readU32_zero data (stepPos data (p + 3 + 8) 4)
        (hz _ (le_trans (by omega) (stepPos_le_next data (p + 3 + 8) 4)))]

lemma readMvhd_vj (data : List Nat) (p vj vj2 : Nat) :
    readMvhdPayload data p vj = readMvhdPayload data p vj2 := by
  by_cases h : 1 ≤ avail data p
  · simp only [readMvhdPayload, if_pos h]
  · have h0 : avail data p = 0 := by omega
    rw [readMvhd_eof data p h0 vj, readMvhd_eof data p h0 vj2]

/-- C8: every under-filled intermediate read yields a zero value rather
than a fatal error: `read_u32_be` returns 0 on a short read, `read_u64_be`
composes such zero-valued halves (in particular a zero low half when only
the high half fits), the mvhd payload decode at end of file yields zeros
for every indeterminate version byte, and the extraction result never
depends on the indeterminate value the C `version` variable holds when
its 1-byte read under-fills — so a short read never aborts extraction. -/
theorem short_reads_zero :
    (∀ (data : List Nat) (pos : Nat), avail data pos < 4 → readU32 data pos = 0)
    ∧ (∀ (data : List Nat) (pos : Nat), avail data pos < 4 → readU64 data pos = 0)
    ∧ (∀ (data : List Nat) (pos : Nat), 4 ≤ avail data pos → avail data pos < 8 →
        readU64 data pos = readU32 data pos * 2 ^ 32)
    ∧ (∀ (data : List Nat) (p : Nat), avail data p = 0 →
        ∀ vj, readMvhdPayload data p vj = (0, 0))
    ∧ (∀ (file : Option (List Nat)) (vj vj2 : Nat),
        get_mp4_duration file vj = get_mp4_duration file vj2) := by
  refine ⟨readU32_zero, readU64_zero, ?_, readMvhd_eof, ?_⟩
  · intro data pos h4 h8
    have hs : stepPos data pos 4 = pos + 4 := by simp only [stepPos, avail] at *; omega
    have hlow : avail data (pos + 4) < 4 := by simp only [avail] at *; omega
    unfold readU64
    rw [hs, readU32_zero data (pos + 4) hlow]
    omega
  · intro file vj vj2
    cases file with
    | none => rfl
    | some data =>
      simp only [get_mp4_duration]
      rw [readMvhd_vj data _ vj vj2]

/-- Witness for C8 at concrete inputs. -/
theorem short_reads_zero_witness :
    readU32 [1, 2] 0 = 0 ∧ readU64 [1, 2] 0 = 0
    ∧ readU64 [0, 0, 0, 7, 9] 0 = readU32 [0, 0, 0, 7, 9] 0 * 2 ^ 32
    ∧ readMvhdPayload [] 0 3 = (0, 0)
    ∧ get_mp4_duration (some [0, 0, 0]) 1 = get_mp4_duration (some [0, 0, 0]) 2 :=
  ⟨short_reads_zero.1 [1, 2] 0 (by decide),
   short_reads_zero.2.1 [1, 2] 0 (by decide),
   short_reads_zero.2.2.1 [0, 0, 0, 7, 9] 0 (by decide) (by decide),
   short_reads_zero.2.2.2.1 [] 0 (by decide) 3,
   short_reads_zero.2.2.2.2 (some [0, 0, 0]) 1 2⟩

/-- C2: after locating mvhd at position `p`, reading the version byte and
skipping the 3 flag bytes, version 1 skips 16 further bytes and reads
`timescale` as a 32-bit and `duration` as a 64-bit big-endian value (at
offsets `p + 20` and `p + 24`), while version 0 or any other version
skips 8 further bytes and reads `timescale` and `duration` as 32-bit
big-endian values (at offsets `p + 12` and `p + 16`). -/
theorem mvhd_version_layout (data : List Nat) (p vj : Nat) (h : 1 ≤ avail data p) :
    (byteAt data p = 1 → 24 ≤ avail data p →
      readMvhdPayload data p vj = (readU32 data (p + 20), readU64 data (p + 24)))
    ∧ (byteAt data p ≠ 1 → 16 ≤ avail data p →
      readMvhdPayload data p vj = (readU32 data (p + 12), readU32 data (p + 16))) := by
  have hstep : stepPos data p 1 = p + 1 := by simp only [stepPos, avail] at *; omega
  constructor
  · intro hv h24
    simp only [readMvhdPayload, if_pos h, hstep, if_pos hv]
    have e1 : p + 1 + 3 + 16 = p + 20 := by omega
    have e2 : stepPos data (p + 20) 4 = p + 24 := by
      simp only [stepPos, avail] at *; omega
    rw [e1, e2]
  · intro hv h16
    simp only [readMvhdPayload, if_pos h, hstep, if_neg hv]
    have e1 : p + 1 + 3 + 8 = p + 12 := by omega
    have e2 : stepPos data (p + 12) 4 = p + 16 := by
      simp only [stepPos, avail] at *; omega
    rw [e1, e2]

/-- A 28-byte mvhd payload with version byte 1. -/
def v1Sample : List Nat := 1 :: List.replicate 27 0

/-- A 28-byte all-zero mvhd payload (version byte 0). -/
def v0Sample : List Nat := List.replicate 28 0

/-- Witness for C2 at concrete inputs, one per version branch. -/
theorem mvhd_version_layout_witness :
    byteAt v1Sample 0 = 1
    ∧ readMvhdPayload v1Sample 0 9 = (readU32 v1Sample 20, readU64 v1Sample 24)
    ∧ byteAt v0Sample 0 ≠ 1
    ∧ readMvhdPayload v0Sample 0 9 = (readU32 v0Sample 12, readU32 v0Sample 16) :=
  ⟨by decide,
   (mvhd_version_layout v1Sample 0 9 (by decide)).1 (by decide) (by decide),
   by decide,
   (mvhd_version_layout v0Sample 0 9 (by decide)).2 (by decide) (by decide)⟩

/-- C3: once moov and mvhd are located, with `(timescale, duration)` the
decoded mvhd fields, a positive timescale yields `found` with
`duration_seconds` the quotient `duration / timescale` (exact ℚ division
modelling the C floating-point division), and a zero timescale yields
not-found regardless of the decoded duration. -/
theorem duration_from_timescale (data : List Nat) (vj : Nat)
    (h1 : (find_atom data moovType 0 0 0).1 ≠ 0)
    (h2 : (find_atom data mvhdType (find_atom data moovType 0 0 0).2.2 0 0).1 ≠ 0) :
    (0 < (readMvhdPayload data
        (find_atom data mvhdType (find_atom data moovType 0 0 0).2.2 0 0).2.2 vj).1 →
      get_mp4_duration (some data) vj =
        ⟨((readMvhdPayload data
            (find_atom data mvhdType (find_atom data moovType 0 0 0).2.2 0 0).2.2 vj).2 : ℚ) /
          ((readMvhdPayload data
            (find_atom data mvhdType (find_atom data moovType 0 0 0).2.2 0 0).2.2 vj).1 : ℚ),
          true⟩)
    ∧ ((readMvhdPayload data
        (find_atom data mvhdType (find_atom data moovType 0 0 0).2.2 0 0).2.2 vj).1 = 0 →
      (get_mp4_duration (some data) vj).found = false) := by
  constructor
  · intro h3
    simp [get_mp4_duration, h1, h2, h3]
  · intro h3
    simp [get_mp4_duration, h1, h2, h3]

/-- Witness for C3 at a concrete valid file (timescale 2, duration 10). -/
theorem duration_from_timescale_witness :
    0 < (readMvhdPayload sampleV0File
        (find_atom sampleV0File mvhdType
          (find_atom sampleV0File moovType 0 0 0).2.2 0 0).2.2 0).1
    ∧ get_mp4_duration (some sampleV0File) 0 =
        ⟨((readMvhdPayload sampleV0File
            (find_atom sampleV0File mvhdType
              (find_atom sampleV0File moovType 0 0 0).2.2 0 0).2.2 0).2 : ℚ) /
          ((readMvhdPayload sampleV0File
            (find_atom sampleV0File mvhdType
              (find_atom sampleV0File moovType 0 0 0).2.2 0 0).2.2 0).1 : ℚ),
          true⟩ :=
  ⟨by decide,
   (duration_from_timescale sampleV0File 0 (by decide) (by decide)).1 (by decide)⟩

lemma toLowerByte_eq_46 (b : Nat) : toLowerByte b = 46 ↔ b % 256 = 46 := by
  unfold toLowerByte; split <;> omega

lemma strrchrDot_none : ∀ l : List Nat, strrchrDot l = none → ∀ b ∈ l, b % 256 ≠ 46 := by
  intro l
  induction l with
  | nil => intro _ b hb; simp at hb
  | cons x rest ih =>
    intro h b hb
    cases hrec : strrchrDot rest with
    | some e => simp [strrchrDot, hrec] at h
    | none =>
      simp only [strrchrDot, hrec] at h
      by_cases hx : x % 256 = 46
      · rw [if_pos hx] at h; exact Option.noConfusion h
      · rcases List.mem_cons.mp hb with rfl | hbr
        · exact hx
        · exact ih hrec b hbr

lemma strrchrDot_some : ∀ l e : List Nat, strrchrDot l = some e →
    ∃ b t, e = b :: t ∧ b % 256 = 46 ∧ e <:+ l := by
  intro l
  induction l with
  | nil => intro e h; simp [strrchrDot] at h
  | cons x rest ih =>
    intro e h
    cases hrec : strrchrDot rest with
    | some e2 =>
      simp only [strrchrDot, hrec] at h
      obtain rfl : e2 = e := Option.some.inj h
      obtain ⟨b, t, he, hb, hs⟩ := ih e2 hrec
      exact ⟨b, t, he, hb, hs.trans (List.suffix_cons x rest)⟩
    | none =>
      simp only [strrchrDot, hrec] at h
      by_cases hx : x % 256 = 46
      · rw [if_pos hx] at h
        obtain rfl : x :: rest = e := Option.some.inj h
        exact ⟨x, rest, rfl, hx, List.suffix_refl _⟩
      · rw [if_neg hx] at h; exact Option.noConfusion h

/-- C7: the walker's extension test is case-insensitive and anchored at
the end of the name: a name qualifies exactly when its byte-wise
lowering ends in ".mp4" (bytes 46, 109, 112, 52). -/
theorem mp4_extension_iff (name : List Nat) :
    hasMp4Ext name = true ↔ [46, 109, 112, 52] <:+ name.map toLowerByte := by
  induction name with
  | nil => simp [hasMp4Ext, strrchrDot]
  | cons x rest ih =>
    cases hrec : strrchrDot rest with
    | some e =>
      have hL : hasMp4Ext (x :: rest) = hasMp4Ext rest := by
        simp [hasMp4Ext, strrchrDot, hrec]
      rw [hL, ih, List.map_cons]
      constructor
      · intro hsuf; exact List.suffix_cons_iff.mpr (Or.inr hsuf)
      · intro hsuf
        rcases List.suffix_cons_iff.mp hsuf with heq | hsuf2
        · exfalso
          obtain ⟨b, t, he, hb46, hsfx⟩ := strrchrDot_some rest e hrec
          have hbmem : b ∈ rest := hsfx.subset (he ▸ List.mem_cons_self b t)
          have h46 : (46 : Nat) ∈ rest.map toLowerByte :=
            List.mem_map.mpr ⟨b, hbmem, (toLowerByte_eq_46 b).mpr hb46⟩
          have htail : rest.map toLowerByte = [109, 112, 52] := by
            injection heq with h1 h2; exact h2.symm
          rw [htail] at h46
          simp at h46
        · exact hsuf2
    | none =>
      by_cases hx : x % 256 = 46
      · have hL : hasMp4Ext (x :: rest) = strcaseEqMp4 (x :: rest) := by
          simp [hasMp4Ext, strrchrDot, hrec, hx]
        rw [hL]
        constructor
        · intro hcase
          have heq : (x :: rest).map toLowerByte = [46, 109, 112, 52] := by
            simpa [strcaseEqMp4] using hcase
          rw [heq]
        · intro hsuf
          rw [List.map_cons] at hsuf
          rcases List.suffix_cons_iff.mp hsuf with heq | hsuf2
          · simp [strcaseEqMp4, List.map_cons, ← heq]
          · exfalso
            have h46 : (46 : Nat) ∈ rest.map toLowerByte := hsuf2.subset (by simp)
            obtain ⟨b, hbmem, hb⟩ := List.mem_map.mp h46
            exact strrchrDot_none rest hrec b hbmem ((toLowerByte_eq_46 b).mp hb)
      · have hL : hasMp4Ext (x :: rest) = false := by
          simp [hasMp4Ext, strrchrDot, hrec, hx]
        rw [hL]
        constructor
        · intro hfalse; exact absurd hfalse (by simp)
        · intro hsuf
          exfalso
          rw [List.map_cons] at hsuf
          rcases List.suffix_cons_iff.mp hsuf with heq | hsuf2
          · have hhead : toLowerByte x = 46 := by injection heq with h1 _; exact h1.symm
            exact hx ((toLowerByte_eq_46 x).mp hhead)
          · have h46 : (46 : Nat) ∈ rest.map toLowerByte := hsuf2.subset (by simp)
            obtain ⟨b, hbmem, hb⟩ := List.mem_map.mp h46
            exact strrchrDot_none rest hrec b hbmem ((toLowerByte_eq_46 b).mp hb)

lemma visitedDirsList_nil : visitedDirsList [] = [] := by
  simp [visitedDirsList]

lemma visitedDirsList_file (n : List Nat) (c : Option (List Nat)) (rest : List FSEntry) :
    visitedDirsList (FSEntry.fileE n c :: rest) = visitedDirsList rest := by
  simp [visitedDirsList]

lemma visitedDirsList_other (n : List Nat) (rest : List FSEntry) :
    visitedDirsList (FSEntry.otherE n :: rest) = visitedDirsList rest := by
  simp [visitedDirsList]

lemma visitedDirsList_dir (n : List Nat) (r : Bool) (es1 rest : List FSEntry) :
    visitedDirsList (FSEntry.dirE n r es1 :: rest) =
      visitedDirs r es1 ++ visitedDirsList rest := by
  simp [visitedDirsList]

lemma dirFileCount_nil (vj : Nat) : dirFileCount vj [] = 0 := rfl

lemma dirFileCount_cons (vj : Nat) (e : FSEntry) (rest : List FSEntry) :
    dirFileCount vj (e :: rest) =
      dirFileCount vj rest + if isCountedFile vj e then 1 else 0 := by
  simp [dirFileCount, List.countP_cons]

lemma dirDurSum_nil (vj : Nat) : dirDurSum vj [] = 0 := rfl

lemma dirDurSum_cons (vj : Nat) (e : FSEntry) (rest : List FSEntry) :
    dirDurSum vj (e :: rest) =
      (if isCountedFile vj e then fileDur vj e else 0) + dirDurSum vj rest := by
  simp [dirDurSum]

lemma dirFileCount_pos (vj : Nat) (l : List FSEntry) :
    0 < dirFileCount vj l ↔ l.any (isCountedFile vj) = true := by
  simp [dirFileCount, List.countP_pos_iff, List.any_eq_true]

/-- Full characterization of the entry loop: the global statistics gain
the counted files, folder hits and durations of the processed entries and
of every visited directory nested below them, while the locals gain only
the direct files. -/
lemma scanLoop_eq (vj : Nat) (es : List FSEntry) (s : Stats) (lc : Nat) (ld : ℚ) :
    scanLoop vj es s lc ld =
      (⟨s.total_files + dirFileCount vj es +
          ((visitedDirsList es).map (dirFileCount vj)).sum,
        s.total_folders_with_mp4 +
          (visitedDirsList es).countP (fun l => l.any (isCountedFile vj)),
        s.total_duration_seconds + dirDurSum vj es +
          ((visitedDirsList es).map (dirDurSum vj)).sum⟩,
       lc + dirFileCount vj es, ld + dirDurSum vj es) := by
  match es with
  | [] =>
    simp [scanLoop, visitedDirsList_nil, dirFileCount_nil, dirDurSum_nil]
  | FSEntry.otherE n :: rest =>
    have hstep : scanLoop vj (FSEntry.otherE n :: rest) s lc ld =
        scanLoop vj rest s lc ld := by
      simp only [scanLoop]
    rw [hstep, scanLoop_eq vj rest s lc ld]
    simp [visitedDirsList_other, dirFileCount_cons, dirDurSum_cons, isCountedFile]
  | FSEntry.fileE n c :: rest =>
    by_cases hext : hasMp4Ext n = true
    · by_cases hfound : (get_mp4_duration c vj).found = true
      · have hstep : scanLoop vj (FSEntry.fileE n c :: rest) s lc ld =
            scanLoop vj rest
              ⟨s.total_files + 1, s.total_folders_with_mp4,
                s.total_duration_seconds + (get_mp4_duration c vj).duration_seconds⟩
              (lc + 1) (ld + (get_mp4_duration c vj).duration_seconds) := by
          simp only [scanLoop, hext, hfound, if_pos]
        rw [hstep, scanLoop_eq vj rest _ _ _]
        simp only [visitedDirsList_file, dirFileCount_cons, dirDurSum_cons,
          isCountedFile, hext, hfound, Bool.and_self, if_pos, fileDur,
          Prod.mk.injEq, Stats.mk.injEq]
        refine ⟨⟨?_, ?_, ?_⟩, ?_, ?_⟩ <;> first | omega | ring1 | ring_nf
      · have hfalse : isCountedFile vj (FSEntry.fileE n c) = false := by
          simp [isCountedFile, hext, hfound]
        have hstep : scanLoop vj (FSEntry.fileE n c :: rest) s lc ld =
            scanLoop vj rest s lc ld := by
          simp only [scanLoop, hext, if_pos]
          rw [if_neg]
          simp [hfound]
        rw [hstep, scanLoop_eq vj rest s lc ld]
        simp [visitedDirsList_file, dirFileCount_cons, dirDurSum_cons, hfalse]
    · have hfalse : isCountedFile vj (FSEntry.fileE n c) = false := by
        simp [isCountedFile, hext]
      have hstep : scanLoop vj (FSEntry.fileE n c :: rest) s lc ld =
          scanLoop vj rest s lc ld := by
        simp only [scanLoop]
        rw [if_neg]
        simp [hext]
      rw [hstep, scanLoop_eq vj rest s lc ld]
      simp [visitedDirsList_file, dirFileCount_cons, dirDurSum_cons, hfalse]
  | FSEntry.dirE n r es1 :: rest =>
    have hinner := scanLoop_eq vj es1 s 0 0
    have hstep : scanLoop vj (FSEntry.dirE n r es1 :: rest) s lc ld =
        scanLoop vj rest (scan_directory vj r es1 s) lc ld := by
      simp only [scanLoop]
    have hdirfalse : isCountedFile vj (FSEntry.dirE n r es1) = false := by
      simp [isCountedFile]
    rw [hstep, scanLoop_eq vj rest (scan_directory vj r es1 s) lc ld]
    cases r with
    | false =>
      have hsd : scan_directory vj false es1 s = s := by simp [scan_directory]
      rw [hsd]
      simp [visitedDirsList_dir, visitedDirs, dirFileCount_cons, dirDurSum_cons, hdirfalse]
    | true =>
      have hvd : visitedDirs true es1 = es1 :: visitedDirsList es1 := by
        simp [visitedDirs]
      by_cases hpos : 0 < dirFileCount vj es1
      · have hany : es1.any (isCountedFile vj) = true := (dirFileCount_pos vj es1).mp hpos
        have hsd : scan_directory vj true es1 s =
            ⟨s.total_files + dirFileCount vj es1 +
                ((visitedDirsList es1).map (dirFileCount vj)).sum,
              s.total_folders_with_mp4 +
                (visitedDirsList es1).countP (fun l => l.any (isCountedFile vj)) + 1,
              s.total_duration_seconds + dirDurSum vj es1 +
                ((visitedDirsList es1).map (dirDurSum vj)).sum⟩ := by
          simp only [scan_directory, if_pos, hinner]
          simp [hpos]
        rw [hsd]
        simp only [visitedDirsList_dir, hvd, dirFileCount_cons, dirDurSum_cons,
          hdirfalse, List.map_append, List.sum_append, List.countP_append,
          List.map_cons, List.sum_cons, List.countP_cons, hany,
          Bool.false_eq_true, if_false, if_true, eq_self_iff_true,
          Prod.mk.injEq, Stats.mk.injEq]
        refine ⟨⟨?_, ?_, ?_⟩, ?_, ?_⟩ <;> first | omega | ring1
      · have hany : es1.any (isCountedFile vj) = false := by
          rcases hb : es1.any (isCountedFile vj) with _ | _
          · rfl
          · exact absurd ((dirFileCount_pos vj es1).mpr hb) hpos
        have hsd : scan_directory vj true es1 s =
            ⟨s.total_files + dirFileCount vj es1 +
                ((visitedDirsList es1).map (dirFileCount vj)).sum,
              s.total_folders_with_mp4 +
                (visitedDirsList es1).countP (fun l => l.any (isCountedFile vj)),
              s.total_duration_seconds + dirDurSum vj es1 +
                ((visitedDirsList es1).map (dirDurSum vj)).sum⟩ := by
          simp only [scan_directory, if_pos, hinner]
          simp [hpos]
        rw [hsd]
        simp only [visitedDirsList_dir, hvd, dirFileCount_cons, dirDurSum_cons,
          hdirfalse, List.map_append, List.sum_append, List.countP_append,
          List.map_cons, List.sum_cons, List.countP_cons, hany,
          Bool.false_eq_true, if_false, if_true, eq_self_iff_true,
          Prod.mk.injEq, Stats.mk.injEq]
        refine ⟨⟨?_, ?_, ?_⟩, ?_, ?_⟩ <;> first | omega | ring1
termination_by sizeOf es

/-- C6: after `scan_directory` completes over a directory tree,
`total_files` has gained the number of regular-file entries in visited
directories whose name passes the case-insensitive `.mp4` test and whose
extraction reports found, `total_duration_seconds` has gained the sum of
those files' durations, and `total_folders_with_mp4` has gained the
number of visited directories (the readable root and, recursively, every
readable directory entry reached from it) that directly contain at least
one such file. -/
theorem scan_directory_aggregates (vj : Nat) (r : Bool) (es : List FSEntry) (s0 : Stats) :
    scan_directory vj r es s0 =
      ⟨s0.total_files + specFiles vj r es,
        s0.total_folders_with_mp4 + specFolders vj r es,
        s0.total_duration_seconds + specDur vj r es⟩ := by
  cases r with
  | false =>
    simp [scan_directory, specFiles, specFolders, specDur, visitedDirs]
  | true =>
    have hvd : visitedDirs true es = es :: visitedDirsList es := by
      simp [visitedDirs]
    simp only [specFiles, specFolders, specDur, hvd, List.map_cons, List.sum_cons,
      List.countP_cons]
    by_cases hpos : 0 < dirFileCount vj es
    · have hany : es.any (isCountedFile vj) = true := (dirFileCount_pos vj es).mp hpos
      simp only [scan_directory, if_pos, scanLoop_eq vj es s0 0 0]
      simp only [hany, eq_self_iff_true, if_true, Bool.false_eq_true, if_false]
      simp only [hpos, zero_add, if_pos, Stats.mk.injEq]
      refine ⟨by omega, by omega, by ring1⟩
    · have hany : es.any (isCountedFile vj) = false := by
        rcases hb : es.any (isCountedFile vj) with _ | _
        · rfl
        · exact absurd ((dirFileCount_pos vj es).mpr hb) hpos
      simp only [scan_directory, if_pos, scanLoop_eq vj es s0 0 0]
      simp only [hany, Bool.false_eq_true, if_false]
      rw [zero_add, if_neg hpos]
      simp only [Stats.mk.injEq]
      refine ⟨by omega, by omega, by ring_nf⟩

end MP4Scanner
